import Mathlib

/-!
# Verification of the Smart-FileConverter sequential conversion queue

A shallow embedding of the single-worker task queue implemented in
`src/telegram-converter-bot/converters/ebook.js` (lines 521-719): the global
mutable state (`processingQueue`, `isProcessing`, `currentTask`, `queueStats`),
the admission function `addToQueue`, the scheduler loop `processQueue`, and the
query/admin functions `getQueuePosition`, `removeFromQueue`, `clearQueue`.

The JavaScript runs on a single-threaded event loop: code between two `await`
points executes atomically, and the pending continuations (resumed awaits,
`setTimeout` callbacks, new inbound `addToQueue` calls) interleave in an
arbitrary order.  We model this directly: a machine state `QState` carries the
queue variables plus the list of pending event-loop continuations (`Cont`),
and `applyLabel` executes one synchronous segment chosen by a `Label`.
A label supplies the environment's nondeterminism: which continuation runs
next, whether an awaited handler/reply succeeds, and the measured duration of
a successful handler run.
-/

namespace FileConverterQueue

/-- A queue item, as built in `addToQueue` (ebook.js 543-552).  `id` stands for
the `uuidv4()` string, `userId` for `ctx.from.id`.  The `ctx`, `handler`,
`options` and `timestamp` fields are opaque to the queue logic (the handler's
behaviour enters the model through the outcome carried by a `Label`) and are
not represented.  `maxAttempts` is an arbitrary JS number supplied by the
caller, so it is an `Int` here; `attempts` is only ever 0 or incremented. -/
structure Job where
  id : Nat
  userId : Nat
  attempts : Nat
  maxAttempts : Int
  deriving DecidableEq

/-- The `queueStats` object (ebook.js 529-534).  `averageProcessingTime` is a
JS number updated by exact small-integer arithmetic in the claims considered,
modelled as a rational.  `samples` is a ghost history variable recording the
duration of each successful run (newest last); the code keeps no such list,
it is added only so that theorems can speak about "the successes so far". -/
structure QueueStats where
  totalProcessed : Nat
  totalFailed : Nat
  averageProcessingTime : ℚ
  samples : List ℚ
  deriving DecidableEq

/-- Observable side effects, recorded in order of occurrence (ghost log).
`started` marks a handler invocation (`currentTask.handler(...)`, line 597);
`posNotice` the queue-position reply sent by `addToQueue` (lines 559-569);
`failNotice` the terminal-failure reply (line 620); `submitThrew` the fact
that `addToQueue` itself rejected because the position reply threw (there is
no try/catch around the `await ctx.reply` at line 563, so the error escapes
to `addToQueue`'s caller). -/
inductive Event where
  | started (jobId : Nat)
  | posNotice (userId : Nat) (position : Nat) (waitSec : Nat)
  | failNotice (userId : Nat)
  | submitThrew (userId : Nat)
  deriving DecidableEq

/-- Pending event-loop continuations (the suspension points of the source):
`submitReply j` -- `addToQueue` suspended at `await ctx.reply` (line 563);
`handler j`     -- `processQueue` suspended at `await currentTask.handler`
                   (line 597) while job `j` executes;
`failReply j`   -- `processQueue` suspended at the terminal-failure
                   `await currentTask.ctx.reply` (line 620);
`timeout`       -- a pending `setTimeout(processQueue, 1000)` (line 628). -/
inductive Cont where
  | submitReply (j : Job)
  | handler (j : Job)
  | failReply (j : Job)
  | timeout
  deriving DecidableEq

/-- The global mutable state of ebook.js (lines 524-534) plus the event-loop
continuation list and ghost observables.  `handlerActive` is the count of
currently-executing handlers: incremented when a handler is invoked and
decremented when it settles (the instrumentation counter of the
at-most-one-concurrency property). -/
structure QState where
  processingQueue : List Job
  isProcessing : Bool
  currentTask : Option Job
  stats : QueueStats
  tasks : List Cont
  handlerActive : Nat
  events : List Event
  deriving DecidableEq

/-- JavaScript `x || d` for a possibly-absent numeric option: `none` models
`undefined`, and `0` is falsy, so both yield the default. -/
def jsOrInt (x : Option Int) (d : Int) : Int :=
  match x with
  | none => d
  | some v => if v = 0 then d else v

/-- The queue item literal of `addToQueue` (ebook.js 543-552):
`attempts: 0, maxAttempts: options.maxAttempts || 3`. -/
def mkQueueItem (id userId : Nat) (optMaxAttempts : Option Int) : Job :=
  { id := id, userId := userId, attempts := 0,
    maxAttempts := jsOrInt optMaxAttempts 3 }

/-- The synchronous prefix of `processQueue` (ebook.js 582-597): if the queue
is empty, clear the busy flag and the current task and return; otherwise set
the busy flag, shift the first item into `currentTask` and invoke its handler
(which suspends: a `Cont.handler` continuation is spawned and the
`handlerActive` counter is incremented). -/
def processQueueStart (s : QState) : QState :=
  match s.processingQueue with
  | [] => { s with isProcessing := false, currentTask := none }
  | j :: rest =>
      { s with isProcessing := true
               currentTask := some j
               processingQueue := rest
               tasks := s.tasks ++ [Cont.handler j]
               handlerActive := s.handlerActive + 1
               events := s.events ++ [Event.started j.id] }

/-- The synchronous segment of `addToQueue` (ebook.js 542-577): push the new
item; if more than one item is now pending, send the queue-position reply
(`position = processingQueue.length - 1`, `estimatedWait = position * 30`)
and suspend at the `await`; otherwise fall through to the
`if (!isProcessing) processQueue()` trigger. -/
def addToQueue (s : QState) (j : Job) : QState :=
  let q := s.processingQueue ++ [j]
  let s1 := { s with processingQueue := q }
  if q.length > 1 then
    { s1 with
        tasks := s1.tasks ++ [Cont.submitReply j]
        events := s1.events ++
          [Event.posNotice j.userId (q.length - 1) ((q.length - 1) * 30)] }
  else
    if s1.isProcessing then s1 else processQueueStart s1

/-- Resumption of `addToQueue` after `await ctx.reply` (ebook.js 563-574).
If the reply succeeded, run the `if (!isProcessing) processQueue()` check.
If the reply threw, there is no surrounding try/catch: `addToQueue` rejects
(recorded as `Event.submitThrew`) and the trigger check is never reached. -/
def addToQueueResume (s : QState) (j : Job) (ok : Bool) : QState :=
  if ok then
    if s.isProcessing then s else processQueueStart s
  else
    { s with events := s.events ++ [Event.submitThrew j.userId] }

/-- Resumption of `processQueue` after `await currentTask.handler` settles
(ebook.js 595-631).  On success: update `totalProcessed` and the running
average with the measured duration, then schedule the next iteration
(`setTimeout`).  On failure: increment `attempts` on the (shared, mutated in
place) task object; if attempts remain, unshift it back onto the front and
schedule the next iteration; otherwise increment `totalFailed` and suspend at
the terminal-failure `await ctx.reply`. -/
def processQueueAfterHandler (s : QState) (j : Job) (ok : Bool) (dur : ℚ) :
    QState :=
  let s0 := { s with handlerActive := s.handlerActive - 1 }
  if ok then
    let n := s0.stats.totalProcessed + 1
    { s0 with
        stats := { s0.stats with
          totalProcessed := n
          averageProcessingTime :=
            (s0.stats.averageProcessingTime * ((n : ℚ) - 1) + dur) / (n : ℚ)
          samples := s0.stats.samples ++ [dur] }
        tasks := s0.tasks ++ [Cont.timeout] }
  else
    let j' : Job := { j with attempts := j.attempts + 1 }
    let s1 := { s0 with currentTask := some j' }
    if (j'.attempts : Int) < j'.maxAttempts then
      { s1 with
          processingQueue := j' :: s1.processingQueue
          tasks := s1.tasks ++ [Cont.timeout] }
    else
      { s1 with
          stats := { s1.stats with totalFailed := s1.stats.totalFailed + 1 }
          tasks := s1.tasks ++ [Cont.failReply j']
          events := s1.events ++ [Event.failNotice j'.userId] }

/-- Resumption after the terminal-failure `await ctx.reply` (ebook.js
619-630).  The reply is wrapped in try/catch, so whether it succeeded or
threw, execution continues to the `setTimeout` scheduling the next
iteration. -/
def processQueueAfterFailReply (s : QState) : QState :=
  { s with tasks := s.tasks ++ [Cont.timeout] }

/-- `removeFromQueue` (ebook.js 648-658): filter out all pending items of the
given user.  Only `processingQueue` is touched. -/
def removeFromQueue (s : QState) (userId : Nat) : QState :=
  { s with processingQueue :=
      s.processingQueue.filter (fun item => item.userId ≠ userId) }

/-- The boolean returned by `removeFromQueue`:
`initialLength !== processingQueue.length` after the filter. -/
def removeFromQueueRet (s : QState) (userId : Nat) : Bool :=
  s.processingQueue.length ≠
    (s.processingQueue.filter (fun item => item.userId ≠ userId)).length

/-- `getQueuePosition` (ebook.js 638-641): 1-based index of the user's first
pending item, 0 if none. -/
def getQueuePosition (s : QState) (userId : Nat) : Nat :=
  match s.processingQueue.findIdx? (fun item => item.userId = userId) with
  | some i => i + 1
  | none => 0

/-- `clearQueue` (ebook.js 699-704): drop all pending items. -/
def clearQueue (s : QState) : QState :=
  { s with processingQueue := [] }

/-- One step of the environment/event loop.  `submit` is a fresh inbound
`addToQueue` call (the job is built by `addToQueue` itself via
`mkQueueItem`); `runTask i ok dur` runs the `i`-th pending continuation,
with `ok` the success of the awaited operation and `dur` the measured
duration (both ignored by continuations that do not need them); `remove` and
`clear` are the admin operations. -/
inductive Label where
  | submit (id userId : Nat) (optMaxAttempts : Option Int)
  | runTask (i : Nat) (ok : Bool) (dur : ℚ)
  | remove (userId : Nat)
  | clear
  deriving DecidableEq

/-- Dispatch a resumed continuation to its synchronous segment. -/
def applyCont (s : QState) (c : Cont) (ok : Bool) (dur : ℚ) : QState :=
  match c with
  | .submitReply j => addToQueueResume s j ok
  | .handler j => processQueueAfterHandler s j ok dur
  | .failReply _ => processQueueAfterFailReply s
  | .timeout => processQueueStart s

/-- Execute one label.  `runTask i` is enabled only when a continuation is
pending at index `i`; it is removed from the pending list and run. -/
def applyLabel (s : QState) (l : Label) : Option QState :=
  match l with
  | .submit id userId optMax => some (addToQueue s (mkQueueItem id userId optMax))
  | .runTask i ok dur =>
      match s.tasks.get? i with
      | none => none
      | some c => some (applyCont { s with tasks := s.tasks.eraseIdx i } c ok dur)
  | .remove userId => some (removeFromQueue s userId)
  | .clear => some (clearQueue s)

/-- The initial state: empty queue, idle, zeroed statistics (ebook.js
523-534). -/
def initState : QState :=
  { processingQueue := []
    isProcessing := false
    currentTask := none
    stats := { totalProcessed := 0, totalFailed := 0,
               averageProcessingTime := 0, samples := [] }
    tasks := []
    handlerActive := 0
    events := [] }

/-- Multi-step execution constrained by a side condition `P` on each step
(used to restrict traces, e.g. "no handler failure" or "no admin
operations").  `P s l = true` must hold for the step taken from `s`. -/
inductive StepsP (P : QState → Label → Bool) : QState → List Label → QState → Prop where
  | nil (s : QState) : StepsP P s [] s
  | cons {s s' s'' : QState} {l : Label} {ls : List Label} :
      P s l = true → applyLabel s l = some s' → StepsP P s' ls s'' →
      StepsP P s (l :: ls) s''

/-- Unconstrained multi-step execution. -/
def Steps : QState → List Label → QState → Prop :=
  StepsP (fun _ _ => true)

/-- A state reachable from the initial state. -/
def Reachable (s : QState) : Prop :=
  ∃ ls, Steps initState ls s

/-! ## Continuation counting and the single-executor invariant -/

/-- Continuations belonging to the scheduler chain: everything except the
`addToQueue` position-reply suspension.  At most one such continuation is ever
pending: the loop exists as exactly one of "a handler is executing", "the
terminal-failure reply is in flight" or "a `setTimeout` is pending". -/
def contChainB : Cont → Bool
  | .submitReply _ => false
  | _ => true

/-- Is this continuation an executing handler? -/
def contHandlerB : Cont → Bool
  | .handler _ => true
  | _ => false

/-- Number of scheduler-chain continuations pending. -/
def numChain (ts : List Cont) : Nat := (ts.filter contChainB).length

/-- Number of executing handlers. -/
def numHandler (ts : List Cont) : Nat := (ts.filter contHandlerB).length

theorem filterLen_append (p : Cont → Bool) (l1 l2 : List Cont) :
    ((l1 ++ l2).filter p).length = (l1.filter p).length + (l2.filter p).length := by
  simp [List.filter_append]

theorem filterLen_eraseIdx (p : Cont → Bool) (l : List Cont) (i : Nat) (c : Cont)
    (h : l.get? i = some c) :
    (l.filter p).length =
      ((l.eraseIdx i).filter p).length + (if p c then 1 else 0) := by
  induction l generalizing i with
  | nil => simp at h
  | cons a t ih =>
    cases i with
    | zero =>
      simp only [List.get?] at h
      cases h
      cases hpc : p c <;> simp [List.eraseIdx, List.filter_cons, hpc]
    | succ n =>
      simp only [List.get?] at h
      cases hpa : p a <;>
        simp [List.eraseIdx, List.filter_cons, hpa, ih n h, Nat.add_right_comm]

theorem numHandler_le_numChain (ts : List Cont) : numHandler ts ≤ numChain ts := by
  induction ts with
  | nil => simp [numHandler, numChain]
  | cons c t ih =>
    cases c <;>
      simp [numHandler, numChain, List.filter_cons, contHandlerB, contChainB] at * <;>
      omega

/-- The structural invariant of the scheduler: the `handlerActive`
instrumentation counter equals the number of executing handlers, at most one
scheduler-chain continuation is pending, and whenever the chain is alive the
`isProcessing` busy flag is set. -/
def Inv (s : QState) : Prop :=
  s.handlerActive = numHandler s.tasks ∧
  numChain s.tasks ≤ 1 ∧
  (numChain s.tasks = 1 → s.isProcessing = true)

theorem inv_init : Inv initState := by
  refine ⟨rfl, ?_, ?_⟩ <;> simp [initState, numChain, numHandler]

theorem inv_processQueueStart (s : QState)
    (hchain : numChain s.tasks = 0)
    (hact : s.handlerActive = numHandler s.tasks) :
    Inv (processQueueStart s) := by
  have hh : numHandler s.tasks = 0 :=
    Nat.le_antisymm (hchain ▸ numHandler_le_numChain s.tasks) (Nat.zero_le _)
  cases hq : s.processingQueue with
  | nil =>
    refine ⟨?_, ?_, ?_⟩ <;> simp [processQueueStart, hq, hact, hchain]
  | cons j rest =>
    have h1 : numChain (s.tasks ++ [Cont.handler j]) = 1 := by
      have h0 : (s.tasks.filter contChainB).length = 0 := hchain
      simp [numChain, List.filter_append, List.filter_cons, contChainB, h0]
    have h2 : numHandler (s.tasks ++ [Cont.handler j]) = numHandler s.tasks + 1 := by
      simp [numHandler, filterLen_append, List.filter_cons, contHandlerB]
    refine ⟨?_, ?_, ?_⟩ <;> simp [processQueueStart, hq, h1, h2, hact]

theorem numChain_append_single (ts : List Cont) (c : Cont) :
    numChain (ts ++ [c]) = numChain ts + (if contChainB c then 1 else 0) := by
  cases hc : contChainB c <;> simp [numChain, List.filter_append, List.filter_cons, hc]

theorem numHandler_append_single (ts : List Cont) (c : Cont) :
    numHandler (ts ++ [c]) = numHandler ts + (if contHandlerB c then 1 else 0) := by
  cases hc : contHandlerB c <;> simp [numHandler, List.filter_append, List.filter_cons, hc]

theorem numChain_eraseIdx (ts : List Cont) (i : Nat) (c : Cont)
    (h : ts.get? i = some c) :
    numChain ts = numChain (ts.eraseIdx i) + (if contChainB c then 1 else 0) :=
  filterLen_eraseIdx contChainB ts i c h

theorem numHandler_eraseIdx (ts : List Cont) (i : Nat) (c : Cont)
    (h : ts.get? i = some c) :
    numHandler ts = numHandler (ts.eraseIdx i) + (if contHandlerB c then 1 else 0) :=
  filterLen_eraseIdx contHandlerB ts i c h

theorem inv_addToQueue (s : QState) (j : Job) (hinv : Inv s) :
    Inv (addToQueue s j) := by
  obtain ⟨hact, hle, himp⟩ := hinv
  simp only [addToQueue]
  split
  · exact ⟨by simpa [numHandler_append_single, contHandlerB] using hact,
      by simpa [numChain_append_single, contChainB] using hle,
      by simpa [numChain_append_single, contChainB] using himp⟩
  · split
    · exact ⟨hact, hle, himp⟩
    · rename_i hnp
      have hproc : s.isProcessing = false := by
        simpa using hnp
      have hchain0 : numChain s.tasks = 0 := by
        rcases Nat.lt_or_ge (numChain s.tasks) 1 with h | h
        · omega
        · have h1 : numChain s.tasks = 1 := Nat.le_antisymm hle h
          rw [himp h1] at hproc
          exact absurd hproc (by simp)
      exact inv_processQueueStart _ hchain0 hact

theorem inv_addToQueueResume (s : QState) (j : Job) (ok : Bool) (hinv : Inv s) :
    Inv (addToQueueResume s j ok) := by
  obtain ⟨hact, hle, himp⟩ := hinv
  simp only [addToQueueResume]
  split
  · split
    · exact ⟨hact, hle, himp⟩
    · rename_i hnp
      have hproc : s.isProcessing = false := by simpa using hnp
      have hchain0 : numChain s.tasks = 0 := by
        rcases Nat.lt_or_ge (numChain s.tasks) 1 with h | h
        · omega
        · have h1 : numChain s.tasks = 1 := Nat.le_antisymm hle h
          rw [himp h1] at hproc
          exact absurd hproc (by simp)
      exact inv_processQueueStart _ hchain0 hact
  · exact ⟨hact, hle, himp⟩

theorem inv_afterHandler (s : QState) (j : Job) (ok : Bool) (dur : ℚ)
    (hchain0 : numChain s.tasks = 0)
    (hact : s.handlerActive = numHandler s.tasks + 1)
    (hproc : s.isProcessing = true) :
    Inv (processQueueAfterHandler s j ok dur) := by
  simp only [processQueueAfterHandler]
  split
  · exact ⟨by simp [numHandler_append_single, contHandlerB, hact],
      by simp [numChain_append_single, contChainB, hchain0],
      fun _ => hproc⟩
  · split
    · exact ⟨by simp [numHandler_append_single, contHandlerB, hact],
        by simp [numChain_append_single, contChainB, hchain0],
        fun _ => hproc⟩
    · exact ⟨by simp [numHandler_append_single, contHandlerB, hact],
        by simp [numChain_append_single, contChainB, hchain0],
        fun _ => hproc⟩

theorem inv_afterFailReply (s : QState)
    (hchain0 : numChain s.tasks = 0)
    (hact : s.handlerActive = numHandler s.tasks)
    (hproc : s.isProcessing = true) :
    Inv (processQueueAfterFailReply s) := by
  exact ⟨by simp [processQueueAfterFailReply, numHandler_append_single, contHandlerB, hact],
    by simp [processQueueAfterFailReply, numChain_append_single, contChainB, hchain0],
    fun _ => hproc⟩

/-- The single-executor invariant is preserved by every step of the
machine. -/
theorem inv_step (s : QState) (l : Label) (s' : QState)
    (hinv : Inv s) (hstep : applyLabel s l = some s') : Inv s' := by
  cases l with
  | submit id uid optMax =>
    simp only [applyLabel] at hstep
    cases hstep
    exact inv_addToQueue s _ hinv
  | remove uid =>
    simp only [applyLabel] at hstep
    cases hstep
    exact ⟨hinv.1, hinv.2.1, hinv.2.2⟩
  | clear =>
    simp only [applyLabel] at hstep
    cases hstep
    exact ⟨hinv.1, hinv.2.1, hinv.2.2⟩
  | runTask i ok dur =>
    obtain ⟨hact, hle, himp⟩ := hinv
    simp only [applyLabel] at hstep
    cases hget : s.tasks.get? i with
    | none => rw [hget] at hstep; exact absurd hstep (by simp)
    | some c =>
      rw [hget] at hstep
      have hstep' : applyCont { s with tasks := s.tasks.eraseIdx i } c ok dur = s' := by
        injection hstep
      have herC := numChain_eraseIdx s.tasks i c hget
      have herH := numHandler_eraseIdx s.tasks i c hget
      cases c with
      | submitReply jj =>
        simp [contChainB, contHandlerB] at herC herH
        subst hstep'
        exact inv_addToQueueResume _ jj ok
          ⟨by rw [← herH]; exact hact, by rw [← herC]; exact hle,
            by rw [← herC]; exact himp⟩
      | handler jj =>
        simp [contChainB, contHandlerB] at herC herH
        have hchain1 : numChain s.tasks = 1 := by omega
        have hchain0 : numChain (s.tasks.eraseIdx i) = 0 := by omega
        have hact' : s.handlerActive = numHandler (s.tasks.eraseIdx i) + 1 := by
          omega
        subst hstep'
        exact inv_afterHandler _ jj ok dur hchain0 hact' (himp hchain1)
      | failReply jj =>
        simp [contChainB, contHandlerB] at herC herH
        have hchain1 : numChain s.tasks = 1 := by omega
        have hchain0 : numChain (s.tasks.eraseIdx i) = 0 := by omega
        have hact' : s.handlerActive = numHandler (s.tasks.eraseIdx i) := by omega
        subst hstep'
        exact inv_afterFailReply _ hchain0 hact' (himp hchain1)
      | timeout =>
        simp [contChainB, contHandlerB] at herC herH
        have hchain1 : numChain s.tasks = 1 := by omega
        have hchain0 : numChain (s.tasks.eraseIdx i) = 0 := by omega
        have hact' : s.handlerActive = numHandler (s.tasks.eraseIdx i) := by omega
        subst hstep'
        exact inv_processQueueStart _ hchain0 hact'

theorem inv_stepsP {P : QState → Label → Bool} {s s' : QState} {ls : List Label}
    (hsteps : StepsP P s ls s') (hinv : Inv s) : Inv s' := by
  induction hsteps with
  | nil => exact hinv
  | cons hP hstep _ ih => exact ih (inv_step _ _ _ hinv hstep)

theorem inv_reachable {s : QState} (h : Reachable s) : Inv s := by
  obtain ⟨ls, hsteps⟩ := h
  exact inv_stepsP hsteps inv_init

/-! ## Statistics per-segment lemmas -/

theorem processQueueStart_stats (s : QState) :
    (processQueueStart s).stats = s.stats := by
  cases hq : s.processingQueue <;> simp [processQueueStart, hq]

theorem addToQueue_stats (s : QState) (j : Job) :
    (addToQueue s j).stats = s.stats := by
  simp only [addToQueue]
  split
  · rfl
  · split
    · rfl
    · exact processQueueStart_stats _

theorem addToQueueResume_stats (s : QState) (j : Job) (ok : Bool) :
    (addToQueueResume s j ok).stats = s.stats := by
  simp only [addToQueueResume]
  split
  · split
    · rfl
    · exact processQueueStart_stats _
  · rfl

/-- A step that runs a handler-success continuation. -/
def isSuccessStep (s : QState) (l : Label) : Prop :=
  ∃ i j dur, l = Label.runTask i true dur ∧ s.tasks.get? i = some (Cont.handler j)

/-- A step that runs a handler-failure continuation whose failure exhausts the
job's attempts (the `else` branch of the retry decision, ebook.js 617-624). -/
def isTerminalFailStep (s : QState) (l : Label) : Prop :=
  ∃ i j dur, l = Label.runTask i false dur ∧
    s.tasks.get? i = some (Cont.handler j) ∧
    ¬ ((j.attempts + 1 : Int) < j.maxAttempts)

theorem afterHandler_stats_success (s : QState) (j : Job) (dur : ℚ) :
    (processQueueAfterHandler s j true dur).stats =
      { s.stats with
          totalProcessed := s.stats.totalProcessed + 1
          averageProcessingTime :=
            (s.stats.averageProcessingTime * ((s.stats.totalProcessed + 1 : ℕ) - 1 : ℚ) + dur) /
              ((s.stats.totalProcessed + 1 : ℕ) : ℚ)
          samples := s.stats.samples ++ [dur] } := by
  simp [processQueueAfterHandler]

theorem afterHandler_stats_retry (s : QState) (j : Job) (dur : ℚ)
    (h : (j.attempts : Int) + 1 < j.maxAttempts) :
    (processQueueAfterHandler s j false dur).stats = s.stats := by
  simp [processQueueAfterHandler, h]

theorem afterHandler_stats_terminal (s : QState) (j : Job) (dur : ℚ)
    (h : ¬ (j.attempts : Int) + 1 < j.maxAttempts) :
    (processQueueAfterHandler s j false dur).stats =
      { s.stats with totalFailed := s.stats.totalFailed + 1 } := by
  simp [processQueueAfterHandler, h]

/-! ## Claim C3: at most one handler executes at any time -/

/-- C3: at most one handler executes at any time for the whole process: in
every reachable state of the queue's step relation, the `handlerActive`
counter (incremented when a handler is invoked, decremented when it settles)
never exceeds 1 — concurrent admissions, handler exceptions and arbitrary
interleavings included, because a submit only starts the scheduler loop when
`isProcessing` is false. -/
theorem c3_at_most_one_handler (s : QState) (h : Reachable s) :
    s.handlerActive ≤ 1 := by
  obtain ⟨hact, hle, _⟩ := inv_reachable h
  have := numHandler_le_numChain s.tasks
  omega

theorem c3_at_most_one_handler_witness :
    (addToQueue initState (mkQueueItem 1 7 none)).handlerActive ≤ 1 :=
  c3_at_most_one_handler _
    ⟨[Label.submit 1 7 none], StepsP.cons rfl rfl (StepsP.nil _)⟩

/-! ## Claim C4: counters updated exactly once per terminal outcome -/

/-- C4: per execution step, `totalProcessed` increments by 1 iff the step is a
successful handler completion, `totalFailed` increments by 1 iff the step is a
handler failure that exhausts the job's attempts, a non-terminal retry (and
every other operation) changes neither counter, and both counters are
monotonically non-decreasing under every step of the machine. -/
theorem c4_counters_once_per_outcome (s : QState) (l : Label) (s' : QState)
    (hstep : applyLabel s l = some s') :
    (s'.stats.totalProcessed = s.stats.totalProcessed + 1 ↔ isSuccessStep s l) ∧
    (s'.stats.totalFailed = s.stats.totalFailed + 1 ↔ isTerminalFailStep s l) ∧
    (s'.stats.totalProcessed = s.stats.totalProcessed ∨
      s'.stats.totalProcessed = s.stats.totalProcessed + 1) ∧
    (s'.stats.totalFailed = s.stats.totalFailed ∨
      s'.stats.totalFailed = s.stats.totalFailed + 1) ∧
    s.stats.totalProcessed ≤ s'.stats.totalProcessed ∧
    s.stats.totalFailed ≤ s'.stats.totalFailed := by
  cases l with
  | submit id uid optMax =>
    simp only [applyLabel] at hstep
    cases hstep
    rw [addToQueue_stats]
    refine ⟨by simp [isSuccessStep], by simp [isTerminalFailStep], by simp, by simp,
      le_refl _, le_refl _⟩
  | remove uid =>
    simp only [applyLabel] at hstep
    cases hstep
    refine ⟨by simp [isSuccessStep, removeFromQueue], by simp [isTerminalFailStep, removeFromQueue],
      by simp [removeFromQueue], by simp [removeFromQueue], le_refl _, le_refl _⟩
  | clear =>
    simp only [applyLabel] at hstep
    cases hstep
    refine ⟨by simp [isSuccessStep, clearQueue], by simp [isTerminalFailStep, clearQueue],
      by simp [clearQueue], by simp [clearQueue], le_refl _, le_refl _⟩
  | runTask i ok dur =>
    simp only [applyLabel] at hstep
    cases hget : s.tasks.get? i with
    | none => rw [hget] at hstep; exact absurd hstep (by simp)
    | some c =>
      rw [hget] at hstep
      have hstep' : applyCont { s with tasks := s.tasks.eraseIdx i } c ok dur = s' := by
        injection hstep
      subst hstep'
      cases c with
      | submitReply jj =>
        simp only [applyCont]
        rw [addToQueueResume_stats]
        refine ⟨?_, ?_, by simp, by simp, le_refl _, le_refl _⟩
        · constructor
          · intro h; simp at h
          · rintro ⟨i', j', dur', hl, hget'⟩
            injection hl with h1 h2 h3
            subst h1
            rw [hget] at hget'
            simp at hget'
        · constructor
          · intro h; simp at h
          · rintro ⟨i', j', dur', hl, hget', _⟩
            injection hl with h1 h2 h3
            subst h1
            rw [hget] at hget'
            simp at hget'
      | failReply jj =>
        simp only [applyCont, processQueueAfterFailReply]
        refine ⟨?_, ?_, by simp, by simp, le_refl _, le_refl _⟩
        · constructor
          · intro h; simp at h
          · rintro ⟨i', j', dur', hl, hget'⟩
            injection hl with h1 h2 h3
            subst h1
            rw [hget] at hget'
            simp at hget'
        · constructor
          · intro h; simp at h
          · rintro ⟨i', j', dur', hl, hget', _⟩
            injection hl with h1 h2 h3
            subst h1
            rw [hget] at hget'
            simp at hget'
      | timeout =>
        simp only [applyCont]
        rw [processQueueStart_stats]
        refine ⟨?_, ?_, by simp, by simp, le_refl _, le_refl _⟩
        · constructor
          · intro h; simp at h
          · rintro ⟨i', j', dur', hl, hget'⟩
            injection hl with h1 h2 h3
            subst h1
            rw [hget] at hget'
            simp at hget'
        · constructor
          · intro h; simp at h
          · rintro ⟨i', j', dur', hl, hget', _⟩
            injection hl with h1 h2 h3
            subst h1
            rw [hget] at hget'
            simp at hget'
      | handler jj =>
        simp only [applyCont]
        cases ok with
        | true =>
          rw [show (processQueueAfterHandler { s with tasks := s.tasks.eraseIdx i } jj true dur).stats
                = _ from afterHandler_stats_success _ jj dur]
          refine ⟨?_, ?_, by simp, by simp, by simp, le_refl _⟩
          · constructor
            · intro _; exact ⟨i, jj, dur, rfl, hget⟩
            · intro _; simp
          · constructor
            · intro h; simp at h
            · rintro ⟨i', j', dur', hl, hget', _⟩
              injection hl with h1 h2 h3
              exact absurd h2 (by simp)
        | false =>
          by_cases hretry : (jj.attempts : Int) + 1 < jj.maxAttempts
          · rw [show (processQueueAfterHandler { s with tasks := s.tasks.eraseIdx i } jj false dur).stats
                  = _ from afterHandler_stats_retry _ jj dur hretry]
            refine ⟨?_, ?_, by simp, by simp, le_refl _, le_refl _⟩
            · constructor
              · intro h; simp at h
              · rintro ⟨i', j', dur', hl, hget'⟩
                injection hl with h1 h2 h3
                exact absurd h2 (by simp)
            · constructor
              · intro h; simp at h
              · rintro ⟨i', j', dur', hl, hget', hterm⟩
                injection hl with h1 h2 h3
                subst h1
                rw [hget] at hget'
                injection hget' with hj
                injection hj with hj'
                subst hj'
                exact absurd hretry hterm
          · rw [show (processQueueAfterHandler { s with tasks := s.tasks.eraseIdx i } jj false dur).stats
                  = _ from afterHandler_stats_terminal _ jj dur hretry]
            refine ⟨?_, ?_, by simp, by simp, le_refl _, by simp⟩
            · constructor
              · intro h; simp at h
              · rintro ⟨i', j', dur', hl, hget'⟩
                injection hl with h1 h2 h3
                exact absurd h2 (by simp)
            · constructor
              · intro _; exact ⟨i, jj, dur, rfl, hget, hretry⟩
              · intro _; simp

/-- A concrete admission used to instantiate several witnesses: the state
after `addToQueue` on the empty idle queue (the handler starts at once). -/
def exJob : Job := mkQueueItem 1 7 none

/-- The state reached by submitting `exJob` to the initial state. -/
def exS1 : QState := addToQueue initState exJob

/-- The state after `exJob`'s handler succeeds with duration 5. -/
def exS2 : QState := (applyLabel exS1 (Label.runTask 0 true 5)).getD initState

theorem c4_counters_once_per_outcome_witness :
    applyLabel exS1 (Label.runTask 0 true 5) = some exS2 ∧
      exS2.stats.totalProcessed = exS1.stats.totalProcessed + 1 := by
  refine ⟨rfl, ?_⟩
  exact (c4_counters_once_per_outcome exS1 (Label.runTask 0 true 5) exS2 rfl).1.mpr
    ⟨0, exJob, 5, rfl, rfl⟩

/-! ## Claim C5: the incremental running average -/

/-- Every step that is not a successful handler completion leaves
`averageProcessingTime`, the success-sample history and `totalProcessed`
untouched. -/
theorem stats_step_nonsuccess (s : QState) (l : Label) (s' : QState)
    (hstep : applyLabel s l = some s') (hns : ¬ isSuccessStep s l) :
    s'.stats.averageProcessingTime = s.stats.averageProcessingTime ∧
    s'.stats.samples = s.stats.samples ∧
    s'.stats.totalProcessed = s.stats.totalProcessed := by
  cases l with
  | submit id uid optMax =>
    simp only [applyLabel] at hstep
    cases hstep
    rw [addToQueue_stats]
    exact ⟨rfl, rfl, rfl⟩
  | remove uid =>
    simp only [applyLabel] at hstep
    cases hstep
    exact ⟨rfl, rfl, rfl⟩
  | clear =>
    simp only [applyLabel] at hstep
    cases hstep
    exact ⟨rfl, rfl, rfl⟩
  | runTask i ok dur =>
    simp only [applyLabel] at hstep
    cases hget : s.tasks.get? i with
    | none => rw [hget] at hstep; exact absurd hstep (by simp)
    | some c =>
      rw [hget] at hstep
      have hstep' : applyCont { s with tasks := s.tasks.eraseIdx i } c ok dur = s' := by
        injection hstep
      subst hstep'
      cases c with
      | submitReply jj =>
        simp only [applyCont]
        rw [addToQueueResume_stats]
        exact ⟨rfl, rfl, rfl⟩
      | failReply jj => exact ⟨rfl, rfl, rfl⟩
      | timeout =>
        simp only [applyCont]
        rw [processQueueStart_stats]
        exact ⟨rfl, rfl, rfl⟩
      | handler jj =>
        cases ok with
        | true => exact absurd ⟨i, jj, dur, rfl, hget⟩ hns
        | false =>
          simp only [applyCont]
          by_cases hretry : (jj.attempts : Int) + 1 < jj.maxAttempts
          · rw [show (processQueueAfterHandler { s with tasks := s.tasks.eraseIdx i } jj false dur).stats
                  = _ from afterHandler_stats_retry _ jj dur hretry]
            exact ⟨rfl, rfl, rfl⟩
          · rw [show (processQueueAfterHandler { s with tasks := s.tasks.eraseIdx i } jj false dur).stats
                  = _ from afterHandler_stats_terminal _ jj dur hretry]
            exact ⟨rfl, rfl, rfl⟩

/-- Stats update of a successful handler completion, in terms of the
pre-state. -/
theorem stats_step_success (s : QState) (i : Nat) (j : Job) (dur : ℚ) (s' : QState)
    (hget : s.tasks.get? i = some (Cont.handler j))
    (hstep : applyLabel s (Label.runTask i true dur) = some s') :
    s'.stats.totalProcessed = s.stats.totalProcessed + 1 ∧
    s'.stats.averageProcessingTime =
      (s.stats.averageProcessingTime * (((s.stats.totalProcessed : ℚ) + 1) - 1) + dur) /
        ((s.stats.totalProcessed : ℚ) + 1) ∧
    s'.stats.samples = s.stats.samples ++ [dur] := by
  simp only [applyLabel, hget] at hstep
  have hstep' : applyCont { s with tasks := s.tasks.eraseIdx i } (Cont.handler j) true dur = s' := by
    injection hstep
  subst hstep'
  simp only [applyCont]
  rw [show (processQueueAfterHandler { s with tasks := s.tasks.eraseIdx i } j true dur).stats
        = _ from afterHandler_stats_success _ j dur]
  refine ⟨rfl, ?_, rfl⟩
  push_cast
  ring_nf

/-- The running-average well-formedness invariant: `totalProcessed` counts the
success samples and the average times the sample count equals the sample
sum. -/
def avgWF (s : QState) : Prop :=
  s.stats.totalProcessed = s.stats.samples.length ∧
  (s.stats.samples.length : ℚ) * s.stats.averageProcessingTime = s.stats.samples.sum

theorem avgWF_init : avgWF initState := by
  constructor <;> simp [initState]

theorem avgWF_step (s : QState) (l : Label) (s' : QState)
    (hstep : applyLabel s l = some s') (h : avgWF s) : avgWF s' := by
  obtain ⟨hcount, hsum⟩ := h
  by_cases hsucc : isSuccessStep s l
  · obtain ⟨i, j, dur, rfl, hget⟩ := hsucc
    obtain ⟨h1, h2, h3⟩ := stats_step_success s i j dur s' hget hstep
    constructor
    · rw [h1, h3, hcount]; simp
    · rw [h2, h3, hcount]
      have hne : ((s.stats.samples.length : ℚ) + 1) ≠ 0 := by positivity
      rw [List.sum_append]
      field_simp
      linarith [hsum]
  · obtain ⟨h1, h2, h3⟩ := stats_step_nonsuccess s l s' hstep hsucc
    exact ⟨by rw [h3, h2, hcount], by rw [h1, h2, hsum]⟩

theorem avgWF_stepsP {P : QState → Label → Bool} {s s' : QState} {ls : List Label}
    (hsteps : StepsP P s ls s') (h : avgWF s) : avgWF s' := by
  induction hsteps with
  | nil => exact h
  | cons hP hstep _ ih => exact ih (avgWF_step _ _ _ hstep h)

theorem avgWF_reachable {s : QState} (h : Reachable s) : avgWF s := by
  obtain ⟨ls, hsteps⟩ := h
  exact avgWF_stepsP hsteps avgWF_init

/-- C5: the average processing time is recomputed on each success as
`(oldAvg * (n-1) + newSample) / n` with `n` the new `totalProcessed` count;
every other step (in particular every failed execution) contributes no sample
and leaves the average unchanged; consequently in every reachable state whose
success samples are 100, 200, 300 (with arbitrary interleaved failed jobs)
the average equals 200. -/
theorem c5_running_average :
    (∀ s i j dur s', s.tasks.get? i = some (Cont.handler j) →
        applyLabel s (Label.runTask i true dur) = some s' →
        s'.stats.totalProcessed = s.stats.totalProcessed + 1 ∧
        s'.stats.averageProcessingTime =
          (s.stats.averageProcessingTime * ((s'.stats.totalProcessed : ℚ) - 1) + dur) /
            (s'.stats.totalProcessed : ℚ)) ∧
    (∀ s l s', applyLabel s l = some s' → ¬ isSuccessStep s l →
        s'.stats.averageProcessingTime = s.stats.averageProcessingTime ∧
        s'.stats.samples = s.stats.samples) ∧
    (∀ s, Reachable s → s.stats.samples = [100, 200, 300] →
        s.stats.averageProcessingTime = 200) := by
  refine ⟨?_, ?_, ?_⟩
  · intro s i j dur s' hget hstep
    obtain ⟨h1, h2, _⟩ := stats_step_success s i j dur s' hget hstep
    rw [h1]
    refine ⟨rfl, ?_⟩
    rw [h2]
    push_cast
    ring_nf
  · intro s l s' hstep hns
    obtain ⟨h1, h2, _⟩ := stats_step_nonsuccess s l s' hstep hns
    exact ⟨h1, h2⟩
  · intro s hreach hsamples
    obtain ⟨_, hsum⟩ := avgWF_reachable hreach
    rw [hsamples] at hsum
    norm_num at hsum
    linarith

/-- Run a list of labels from a state; `none` if some step is disabled. -/
def runTrace (s : QState) (ls : List Label) : Option QState :=
  match ls with
  | [] => some s
  | l :: rest =>
      match applyLabel s l with
      | none => none
      | some s' => runTrace s' rest

theorem runTrace_steps {ls : List Label} :
    ∀ {s s' : QState}, runTrace s ls = some s' → Steps s ls s' := by
  induction ls with
  | nil =>
    intro s s' h
    simp only [runTrace] at h
    cases h
    exact StepsP.nil s
  | cons l rest ih =>
    intro s s' h
    simp only [runTrace] at h
    cases hl : applyLabel s l with
    | none => rw [hl] at h; exact absurd h (by simp)
    | some t => rw [hl] at h; exact StepsP.cons rfl hl (ih h)

/-- A trace with successes of durations 100, 200, 300 and one interleaved
job (`maxAttempts = 1`) that fails terminally between the first and the
second success. -/
def c5Trace : List Label :=
  [Label.submit 1 10 none, Label.runTask 0 true 100,
   Label.submit 2 20 (some 1), Label.runTask 0 true 0,
   Label.runTask 0 false 0, Label.runTask 0 true 0,
   Label.submit 3 30 none, Label.runTask 0 true 0, Label.runTask 0 true 200,
   Label.submit 4 40 none, Label.runTask 0 true 0, Label.runTask 0 true 300]

/-- The state reached by `c5Trace`. -/
def c5State : QState :=
  { processingQueue := []
    isProcessing := true
    currentTask := some { id := 4, userId := 40, attempts := 0, maxAttempts := 3 }
    stats := { totalProcessed := 3, totalFailed := 1,
               averageProcessingTime := 200, samples := [100, 200, 300] }
    tasks := [Cont.timeout]
    handlerActive := 0
    events := [Event.started 1, Event.started 2, Event.failNotice 20,
               Event.started 3, Event.started 4] }

theorem c5_trace_eval : runTrace initState c5Trace = some c5State := by
  norm_num [c5Trace, c5State, runTrace, applyLabel, applyCont, addToQueue,
    addToQueueResume, processQueueStart, processQueueAfterHandler,
    processQueueAfterFailReply, mkQueueItem, jsOrInt, initState]

theorem c5_running_average_witness :
    runTrace initState c5Trace = some c5State ∧
    c5State.stats.samples = [100, 200, 300] ∧
    c5State.stats.totalFailed = 1 ∧
    c5State.stats.averageProcessingTime = 200 := by
  refine ⟨c5_trace_eval, rfl, rfl, ?_⟩
  exact c5_running_average.2.2 c5State ⟨c5Trace, runTrace_steps c5_trace_eval⟩ rfl

/-! ## Claim C7: removeFromQueue -/

/-- C7: `removeFromQueue` removes exactly the pending jobs owned by the given
user (every remaining job has a different owner, every differently-owned job
survives, and the surviving list is a sublist of the original: relative order
is preserved); its return value is true iff at least one pending job was
owned by the user; and it never touches the current task, the pending
continuations (in particular an executing handler with the same owner), the
busy flag or the statistics. -/
theorem c7_removeFromQueue (s : QState) (uid : Nat) :
    (∀ jb ∈ (removeFromQueue s uid).processingQueue, jb.userId ≠ uid) ∧
    (removeFromQueue s uid).processingQueue.Sublist s.processingQueue ∧
    (∀ jb ∈ s.processingQueue, jb.userId ≠ uid →
      jb ∈ (removeFromQueue s uid).processingQueue) ∧
    (removeFromQueueRet s uid = true ↔ ∃ jb ∈ s.processingQueue, jb.userId = uid) ∧
    (removeFromQueue s uid).currentTask = s.currentTask ∧
    (removeFromQueue s uid).tasks = s.tasks ∧
    (removeFromQueue s uid).isProcessing = s.isProcessing ∧
    (removeFromQueue s uid).stats = s.stats := by
  refine ⟨?_, ?_, ?_, ?_, rfl, rfl, rfl, rfl⟩
  · intro jb hjb
    simp only [removeFromQueue, List.mem_filter] at hjb
    simpa using hjb.2
  · exact List.filter_sublist s.processingQueue
  · intro jb hjb hne
    simp only [removeFromQueue, List.mem_filter]
    exact ⟨hjb, by simpa using hne⟩
  · simp only [removeFromQueueRet, decide_eq_true_eq]
    constructor
    · intro hne
      by_contra hno
      push_neg at hno
      exact hne (by rw [List.filter_eq_self.mpr (fun a ha => by simpa using hno a ha)])
    · rintro ⟨jb, hmem, heq⟩ hlen
      have hfil : s.processingQueue.filter
          (fun item => decide (item.userId ≠ uid)) = s.processingQueue :=
        (List.filter_sublist s.processingQueue).eq_of_length hlen.symm
      have : jb ∈ s.processingQueue.filter (fun item => decide (item.userId ≠ uid)) := by
        rw [hfil]; exact hmem
      have := (List.mem_filter.mp this).2
      simp [heq] at this

theorem c7_removeFromQueue_witness :
    (removeFromQueue c5State 40).currentTask = c5State.currentTask ∧
    (removeFromQueue c5State 40).stats = c5State.stats ∧
    (removeFromQueue c5State 40).tasks = c5State.tasks :=
  ⟨(c7_removeFromQueue c5State 40).2.2.2.2.1,
   (c7_removeFromQueue c5State 40).2.2.2.2.2.2.2,
   (c7_removeFromQueue c5State 40).2.2.2.2.2.1⟩

/-! ## Claim C10: falsy maxAttempts options default to 3 -/

/-- C10: a submitted job built from options with a falsy `maxAttempts`
(absent, or the number 0: `options.maxAttempts || 3`) gets the default
ceiling 3; no option value can produce a job with ceiling 0; and a submit
step admits exactly the job built by `mkQueueItem`. -/
theorem c10_maxAttempts_default :
    (∀ id uid x, (x = none ∨ x = some 0) → (mkQueueItem id uid x).maxAttempts = 3) ∧
    (∀ id uid x, (mkQueueItem id uid x).maxAttempts ≠ 0) ∧
    (∀ s id uid x, applyLabel s (Label.submit id uid x) =
      some (addToQueue s (mkQueueItem id uid x))) := by
  refine ⟨?_, ?_, fun s id uid x => rfl⟩
  · rintro id uid x (rfl | rfl) <;> simp [mkQueueItem, jsOrInt]
  · intro id uid x
    cases x with
    | none => simp [mkQueueItem, jsOrInt]
    | some v =>
      by_cases hv : v = 0 <;> simp [mkQueueItem, jsOrInt, hv]

theorem c10_maxAttempts_default_witness :
    (mkQueueItem 1 7 (some 0)).maxAttempts = 3 ∧
    (mkQueueItem 1 7 (some 0)).maxAttempts ≠ 0 :=
  ⟨c10_maxAttempts_default.1 1 7 (some 0) (Or.inr rfl),
   c10_maxAttempts_default.2.1 1 7 (some 0)⟩

/-! ## Claim C8: the queue-position notice -/

/-- The queue-position notices contained in the event log, in order:
(owner, reported position, reported estimated wait in seconds). -/
def posNotices (s : QState) : List (Nat × Nat × Nat) :=
  s.events.filterMap (fun e =>
    match e with
    | Event.posNotice u p w => some (u, p, w)
    | _ => none)

theorem posNotices_append (s : QState) (es : List Event) :
    (s.events ++ es).filterMap (fun e =>
      match e with
      | Event.posNotice u p w => some (u, p, w)
      | _ => none) =
    posNotices s ++ es.filterMap (fun e =>
      match e with
      | Event.posNotice u p w => some (u, p, w)
      | _ => none) := by
  simp [posNotices, List.filterMap_append]

theorem findIdx_fresh (q : List Job) (j : Job) (uid : Nat)
    (hfresh : ∀ jb ∈ q, jb.userId ≠ uid) (hj : j.userId = uid) :
    (q ++ [j]).findIdx? (fun item => item.userId = uid) = some q.length := by
  induction q with
  | nil => simp [List.findIdx?_cons, hj]
  | cons a t ih =>
    have ha : a.userId ≠ uid := hfresh a (by simp)
    simp [List.findIdx?_cons, ha, ih (fun jb hjb => hfresh jb (by simp [hjb]))]

/-- The trace behind the C8 counterexample: three admissions; the first starts
executing at once, so the third is admitted with two jobs pending. -/
def c8Trace : List Label :=
  [Label.submit 1 10 none, Label.submit 2 20 none, Label.submit 3 30 none]

/-- The state after the first two admissions of `c8Trace`. -/
def c8Pre : QState :=
  { processingQueue := [{ id := 2, userId := 20, attempts := 0, maxAttempts := 3 }]
    isProcessing := true
    currentTask := some { id := 1, userId := 10, attempts := 0, maxAttempts := 3 }
    stats := { totalProcessed := 0, totalFailed := 0,
               averageProcessingTime := 0, samples := [] }
    tasks := [Cont.handler { id := 1, userId := 10, attempts := 0, maxAttempts := 3 }]
    handlerActive := 1
    events := [Event.started 1] }

/-- The state after all of `c8Trace`. -/
def c8State : QState :=
  { processingQueue := [{ id := 2, userId := 20, attempts := 0, maxAttempts := 3 },
                        { id := 3, userId := 30, attempts := 0, maxAttempts := 3 }]
    isProcessing := true
    currentTask := some { id := 1, userId := 10, attempts := 0, maxAttempts := 3 }
    stats := { totalProcessed := 0, totalFailed := 0,
               averageProcessingTime := 0, samples := [] }
    tasks := [Cont.handler { id := 1, userId := 10, attempts := 0, maxAttempts := 3 },
              Cont.submitReply { id := 3, userId := 30, attempts := 0, maxAttempts := 3 }]
    handlerActive := 1
    events := [Event.started 1, Event.posNotice 30 1 30] }

/-- C8 counterexample: after the third admission the submitted job's 1-based
queue position is 2, but the notice sent to the caller reports an estimated
wait of 30 seconds, not position * 30 = 60: the code computes the wait from
`processingQueue.length - 1` (the number of jobs ahead), not from the 1-based
position of the submitted job. -/
theorem c8_counterexample :
    runTrace initState c8Trace = some c8State ∧
    posNotices c8State = [(30, 1, 30)] ∧
    getQueuePosition c8State 30 = 2 ∧
    (30 : Nat) ≠ getQueuePosition c8State 30 * 30 := by
  refine ⟨by decide, by decide, by decide, by decide⟩

/-- C8 amended: when a submit finds the pending list empty no position notice
is sent; when it finds `k > 0` jobs already pending, exactly one notice is
sent, reporting position `k` and estimated wait `k * 30` seconds — that is,
`(p - 1) * 30` where `p` is the submitted job's 1-based queue position (for an
owner with no earlier pending job, `getQueuePosition` returns `k + 1`). -/
theorem c8_position_notice (s : QState) (id uid : Nat) (x : Option Int) (s' : QState)
    (hstep : applyLabel s (Label.submit id uid x) = some s') :
    (s.processingQueue = [] → posNotices s' = posNotices s) ∧
    (s.processingQueue ≠ [] →
      posNotices s' = posNotices s ++
        [(uid, s.processingQueue.length, s.processingQueue.length * 30)] ∧
      ((∀ jb ∈ s.processingQueue, jb.userId ≠ uid) →
        getQueuePosition s' uid = s.processingQueue.length + 1)) := by
  simp only [applyLabel] at hstep
  cases hstep
  constructor
  · intro hq
    simp only [addToQueue, hq]
    norm_num
    split
    · rfl
    · simp [processQueueStart, posNotices, List.filterMap_append]
  · intro hq
    cases hqq : s.processingQueue with
    | nil => exact absurd hqq hq
    | cons a t =>
      constructor
      · simp only [addToQueue, hqq]
        rw [if_pos (by simp)]
        simp [posNotices, List.filterMap_append, mkQueueItem]
      · intro hfresh
        simp only [addToQueue, hqq]
        rw [if_pos (by simp)]
        simp only [getQueuePosition]
        rw [show ((a :: t) ++ [mkQueueItem id uid x]).findIdx?
              (fun item => item.userId = uid) = some (a :: t).length from
            findIdx_fresh (a :: t) _ uid hfresh rfl]

theorem c8_position_notice_witness :
    posNotices c8State = posNotices c8Pre ++ [(30, 1, 30)] ∧
    getQueuePosition c8State 30 = 2 := by
  have h := (c8_position_notice c8Pre 3 30 none c8State (by decide)).2 (by decide)
  exact ⟨h.1, h.2 (by decide)⟩

/-! ## Claim C9: reply-channel failures -/

/-- The trace behind the C9 counterexample: three admissions (the third
receives a queue-position notice), then the third caller's position reply
throws. -/
def c9Trace : List Label :=
  [Label.submit 1 10 none, Label.submit 2 20 none, Label.submit 3 30 none,
   Label.runTask 1 false 0]

/-- The state after `c9Trace`: the position-notice failure has escaped
`addToQueue` (recorded as `Event.submitThrew 30`). -/
def c9State : QState :=
  { processingQueue := [{ id := 2, userId := 20, attempts := 0, maxAttempts := 3 },
                        { id := 3, userId := 30, attempts := 0, maxAttempts := 3 }]
    isProcessing := true
    currentTask := some { id := 1, userId := 10, attempts := 0, maxAttempts := 3 }
    stats := { totalProcessed := 0, totalFailed := 0,
               averageProcessingTime := 0, samples := [] }
    tasks := [Cont.handler { id := 1, userId := 10, attempts := 0, maxAttempts := 3 }]
    handlerActive := 1
    events := [Event.started 1, Event.posNotice 30 1 30, Event.submitThrew 30] }

/-- C9 counterexample: the queue-position `ctx.reply` in `addToQueue` is not
wrapped in try/catch, so when it throws, the error escapes to `addToQueue`'s
caller (`Event.submitThrew`): a reply-channel failure does propagate to the
submit caller, refuting the claim for the admission notice. -/
theorem c9_counterexample :
    runTrace initState c9Trace = some c9State ∧
    Event.submitThrew 30 ∈ c9State.events := by
  refine ⟨by decide, by decide⟩

/-- C9 amended: (a) an error of the terminal-failure notice is swallowed: the
step's outcome is independent of whether the reply succeeded, and the next
iteration (`setTimeout`) is scheduled either way; (b) a submit always leaves
the job admitted (pending or already started) before any reply is awaited, so
a reply failure cannot un-enqueue it; but (c) when the queue-position reply
throws, the error escapes `addToQueue` (the caller sees it) and the
`if (!isProcessing) processQueue()` trigger is skipped: the only state change
is the record of the escaped error. -/
theorem c9_reply_failures :
    (∀ s i j dur s', s.tasks.get? i = some (Cont.failReply j) →
      applyLabel s (Label.runTask i true dur) = applyLabel s (Label.runTask i false dur) ∧
      (applyLabel s (Label.runTask i false dur) = some s' →
        s'.tasks = s.tasks.eraseIdx i ++ [Cont.timeout])) ∧
    (∀ s id uid x s', applyLabel s (Label.submit id uid x) = some s' →
      mkQueueItem id uid x ∈ s'.processingQueue ∨
        s'.currentTask = some (mkQueueItem id uid x)) ∧
    (∀ s i j dur s', s.tasks.get? i = some (Cont.submitReply j) →
      applyLabel s (Label.runTask i false dur) = some s' →
      s'.processingQueue = s.processingQueue ∧
      s'.isProcessing = s.isProcessing ∧
      s'.currentTask = s.currentTask ∧
      s'.tasks = s.tasks.eraseIdx i ∧
      s'.events = s.events ++ [Event.submitThrew j.userId]) := by
  refine ⟨?_, ?_, ?_⟩
  · intro s i j dur s' hget
    constructor
    · simp only [applyLabel]
      rw [hget]
      rfl
    · intro hstep
      simp only [applyLabel, hget] at hstep
      have h : applyCont { s with tasks := s.tasks.eraseIdx i }
          (Cont.failReply j) false dur = s' := by injection hstep
      subst h
      rfl
  · intro s id uid x s' hstep
    simp only [applyLabel] at hstep
    cases hstep
    simp only [addToQueue]
    split
    · left; simp
    · split
      · left; simp
      · rename_i hlen _
        have hq : s.processingQueue = [] := by
          cases hqq : s.processingQueue with
          | nil => rfl
          | cons a t => rw [hqq] at hlen; simp at hlen
        right
        simp [processQueueStart, hq]
  · intro s i j dur s' hget hstep
    simp only [applyLabel, hget] at hstep
    have h : applyCont { s with tasks := s.tasks.eraseIdx i }
        (Cont.submitReply j) false dur = s' := by injection hstep
    subst h
    exact ⟨rfl, rfl, rfl, rfl, rfl⟩

theorem c9_reply_failures_witness :
    Event.submitThrew 30 ∈ c9State.events ∧
    c9State.processingQueue = c8State.processingQueue ∧
    c9State.isProcessing = c8State.isProcessing := by
  have h := c9_reply_failures.2.2 c8State 1
      { id := 3, userId := 30, attempts := 0, maxAttempts := 3 } 0 c9State
      (by decide) (by decide)
  refine ⟨?_, h.1, h.2.1⟩
  rw [h.2.2.2.2]
  decide

/-! ## Claim C6: job locations -/

/-- Location change of `processQueueStart`: either the queue is empty and the
current-task reference is cleared, or the front job moves into `currentTask`. -/
theorem processQueueStart_locations (s : QState) :
    (s.processingQueue = [] ∧ (processQueueStart s).processingQueue = [] ∧
      (processQueueStart s).currentTask = none) ∨
    (∃ j rest, s.processingQueue = j :: rest ∧
      (processQueueStart s).processingQueue = rest ∧
      (processQueueStart s).currentTask = some j) := by
  cases hq : s.processingQueue with
  | nil =>
    left
    exact ⟨rfl, by simp [processQueueStart, hq], by simp [processQueueStart, hq]⟩
  | cons j rest =>
    right
    exact ⟨j, rest, rfl, by simp [processQueueStart, hq], by simp [processQueueStart, hq]⟩

/-- The trace behind the C6 counterexample: one admission whose handler fails
with attempts remaining. -/
def c6Trace : List Label :=
  [Label.submit 1 10 none, Label.runTask 0 false 0]

/-- The state after `c6Trace`'s admission, before the handler settles. -/
def c6Pre : QState :=
  { processingQueue := []
    isProcessing := true
    currentTask := some { id := 1, userId := 10, attempts := 0, maxAttempts := 3 }
    stats := { totalProcessed := 0, totalFailed := 0,
               averageProcessingTime := 0, samples := [] }
    tasks := [Cont.handler { id := 1, userId := 10, attempts := 0, maxAttempts := 3 }]
    handlerActive := 1
    events := [Event.started 1] }

/-- The retried job of the C6 counterexample. -/
def c6Job : Job := { id := 1, userId := 10, attempts := 1, maxAttempts := 3 }

/-- The state after `c6Trace`: the retried job sits at the front of the
pending list and is still referenced as the current task. -/
def c6State : QState :=
  { processingQueue := [c6Job]
    isProcessing := true
    currentTask := some c6Job
    stats := { totalProcessed := 0, totalFailed := 0,
               averageProcessingTime := 0, samples := [] }
    tasks := [Cont.timeout]
    handlerActive := 0
    events := [Event.started 1] }

/-- C6 counterexample: a reachable state in which one job is simultaneously
in the pending list and referenced as the current task — after a retry,
`processingQueue.unshift(currentTask)` re-inserts the very object that
`currentTask` still points to, and the reference is only overwritten at the
next loop iteration. -/
theorem c6_counterexample :
    runTrace initState c6Trace = some c6State ∧
    c6State.currentTask = some c6Job ∧
    c6Job ∈ c6State.processingQueue := by
  refine ⟨by decide, by decide, by decide⟩

/-- C6 amended: jobs move between the two locations only in the following
structured ways, so no job is ever lost; but the two locations are not
mutually exclusive: a retry re-inserts the failed job at the front of the
pending list while it is still referenced as current, and after a terminal
failure (or a success) the stale current reference survives until the next
loop iteration overwrites or clears it. -/
theorem c6_job_locations (s : QState) (l : Label) (s' : QState)
    (hstep : applyLabel s l = some s') :
    (s'.processingQueue = s.processingQueue ∧ s'.currentTask = s.currentTask) ∨
    (∃ id uid x, l = Label.submit id uid x ∧
      s'.processingQueue = s.processingQueue ++ [mkQueueItem id uid x] ∧
      s'.currentTask = s.currentTask) ∨
    (∃ j rest, s.processingQueue = j :: rest ∧ s'.processingQueue = rest ∧
      s'.currentTask = some j) ∨
    (∃ id uid x, l = Label.submit id uid x ∧ s.processingQueue = [] ∧
      s'.processingQueue = [] ∧ s'.currentTask = some (mkQueueItem id uid x)) ∨
    (s.processingQueue = [] ∧ s'.processingQueue = [] ∧ s'.currentTask = none) ∨
    (∃ i j dur, l = Label.runTask i false dur ∧
      s.tasks.get? i = some (Cont.handler j) ∧
      s'.processingQueue = { j with attempts := j.attempts + 1 } :: s.processingQueue ∧
      s'.currentTask = some { j with attempts := j.attempts + 1 }) ∨
    (∃ i j dur, l = Label.runTask i false dur ∧
      s.tasks.get? i = some (Cont.handler j) ∧
      s'.processingQueue = s.processingQueue ∧
      s'.currentTask = some { j with attempts := j.attempts + 1 }) ∨
    (l = Label.clear ∧ s'.processingQueue = [] ∧ s'.currentTask = s.currentTask) ∨
    (∃ uid, l = Label.remove uid ∧
      s'.processingQueue = s.processingQueue.filter (fun it => it.userId ≠ uid) ∧
      s'.currentTask = s.currentTask) := by
  cases l with
  | clear =>
    simp only [applyLabel] at hstep
    cases hstep
    exact Or.inr (Or.inr (Or.inr (Or.inr (Or.inr (Or.inr (Or.inr (Or.inl ⟨rfl, rfl, rfl⟩)))))))
  | remove uid =>
    simp only [applyLabel] at hstep
    cases hstep
    exact Or.inr (Or.inr (Or.inr (Or.inr (Or.inr (Or.inr (Or.inr (Or.inr ⟨uid, rfl, rfl, rfl⟩)))))))
  | submit id uid x =>
    simp only [applyLabel] at hstep
    cases hstep
    simp only [addToQueue]
    split
    · exact Or.inr (Or.inl ⟨id, uid, x, rfl, rfl, rfl⟩)
    · split
      · exact Or.inr (Or.inl ⟨id, uid, x, rfl, rfl, rfl⟩)
      · rename_i hlen _
        have hq : s.processingQueue = [] := by
          cases hqq : s.processingQueue with
          | nil => rfl
          | cons a t => rw [hqq] at hlen; simp at hlen
        refine Or.inr (Or.inr (Or.inr (Or.inl ⟨id, uid, x, rfl, hq, ?_, ?_⟩))) <;>
          simp [processQueueStart, hq]
  | runTask i ok dur =>
    simp only [applyLabel] at hstep
    cases hget : s.tasks.get? i with
    | none => rw [hget] at hstep; exact absurd hstep (by simp)
    | some c =>
      rw [hget] at hstep
      have hstep' : applyCont { s with tasks := s.tasks.eraseIdx i } c ok dur = s' := by
        injection hstep
      subst hstep'
      cases c with
      | failReply jj => exact Or.inl ⟨rfl, rfl⟩
      | timeout =>
        simp only [applyCont]
        rcases processQueueStart_locations { s with tasks := s.tasks.eraseIdx i } with
          ⟨h1, h2, h3⟩ | ⟨j, rest, h1, h2, h3⟩
        · exact Or.inr (Or.inr (Or.inr (Or.inr (Or.inl ⟨h1, h2, h3⟩))))
        · exact Or.inr (Or.inr (Or.inl ⟨j, rest, h1, h2, h3⟩))
      | submitReply jj =>
        simp only [applyCont, addToQueueResume]
        split
        · split
          · exact Or.inl ⟨rfl, rfl⟩
          · rcases processQueueStart_locations { s with tasks := s.tasks.eraseIdx i } with
              ⟨h1, h2, h3⟩ | ⟨j, rest, h1, h2, h3⟩
            · exact Or.inr (Or.inr (Or.inr (Or.inr (Or.inl ⟨h1, h2, h3⟩))))
            · exact Or.inr (Or.inr (Or.inl ⟨j, rest, h1, h2, h3⟩))
        · exact Or.inl ⟨rfl, rfl⟩
      | handler jj =>
        simp only [applyCont]
        cases ok with
        | true => exact Or.inl ⟨rfl, rfl⟩
        | false =>
          simp only [processQueueAfterHandler, Bool.false_eq_true, if_false]
          split
          · exact Or.inr (Or.inr (Or.inr (Or.inr (Or.inr (Or.inl
              ⟨i, jj, dur, rfl, hget, rfl, rfl⟩)))))
          · exact Or.inr (Or.inr (Or.inr (Or.inr (Or.inr (Or.inr (Or.inl
              ⟨i, jj, dur, rfl, hget, rfl, rfl⟩))))))

theorem c6_job_locations_witness :
    c6State.processingQueue = c6Job :: c6Pre.processingQueue ∧
    c6State.currentTask = some c6Job := by
  have h := c6_job_locations c6Pre (Label.runTask 0 false 0) c6State (by decide)
  rcases h with ⟨h1, _⟩ | ⟨id, uid, x, hl, _⟩ | ⟨j, rest, hq, _⟩ |
    ⟨id, uid, x, hl, _⟩ | ⟨_, _, h5⟩ | ⟨i, j, dur, hl, hget, hq, hcur⟩ |
    ⟨i, j, dur, hl, hget, hq, hcur⟩ | ⟨hl, _⟩ | ⟨uid, hl, _⟩
  · exact absurd h1 (by decide)
  · exact absurd hl (by simp)
  · exact absurd hq (by simp [c6Pre])
  · exact absurd hl (by simp)
  · exact absurd h5 (by decide)
  · injection hl with h1 h2 h3
    subst h1
    rw [show c6Pre.tasks.get? 0 = some (Cont.handler
        { id := 1, userId := 10, attempts := 0, maxAttempts := 3 }) from rfl] at hget
    injection hget with h4
    injection h4 with h5
    subst h5
    exact ⟨hq, hcur⟩
  · injection hl with h1 h2 h3
    subst h1
    exact absurd hq (by decide)
  · exact absurd hl (by simp)
  · exact absurd hl (by simp)

/-! ## Claim C1: FIFO order with retry priority -/

/-- The id carried by a handler-invocation event, if any. -/
def startedOf : Event → Option Nat
  | Event.started i => some i
  | _ => none

/-- Ids of the jobs whose handler has been invoked, in invocation order. -/
def startedIds (s : QState) : List Nat :=
  s.events.filterMap startedOf

/-- Ids of the pending jobs, front first. -/
def queueIds (s : QState) : List Nat :=
  s.processingQueue.map Job.id

/-- Ids admitted by the submit labels of a trace, in admission order. -/
def submitsOf (ls : List Label) : List Nat :=
  ls.filterMap (fun l =>
    match l with
    | Label.submit id _ _ => some id
    | _ => none)

/-- Trace restriction: no admin operations (`remove`/`clear`). -/
def noAdminB (_s : QState) (l : Label) : Bool :=
  match l with
  | Label.remove _ => false
  | Label.clear => false
  | _ => true

/-- Trace restriction: no admin operations and every handler completion
succeeds. -/
def noFailB (s : QState) (l : Label) : Bool :=
  match l with
  | Label.remove _ => false
  | Label.clear => false
  | Label.runTask i ok _ =>
      match s.tasks.get? i with
      | some (Cont.handler _) => ok
      | _ => true
  | Label.submit _ _ _ => true

theorem startedIds_append (es1 es2 : List Event) :
    (es1 ++ es2).filterMap startedOf =
      es1.filterMap startedOf ++ es2.filterMap startedOf :=
  List.filterMap_append es1 es2 _

/-- `processQueueStart` moves the queue front (if any) into the started
list: the concatenation `startedIds ++ queueIds` is invariant under it. -/
theorem pqs_started_queue (t : QState) :
    startedIds (processQueueStart t) ++ queueIds (processQueueStart t) =
      startedIds t ++ queueIds t := by
  cases hq : t.processingQueue with
  | nil =>
    simp [processQueueStart, hq, queueIds]
    rfl
  | cons j rest =>
    simp [processQueueStart, hq, queueIds, startedIds, startedOf, List.filterMap_append]

/-- Every no-fail step extends `startedIds ++ queueIds` by exactly the ids it
admits: a submit appends the new id at the back, every other allowed step
preserves the concatenation. -/
theorem startedQueue_step (s : QState) (l : Label) (s' : QState)
    (hP : noFailB s l = true) (hstep : applyLabel s l = some s') :
    startedIds s' ++ queueIds s' = (startedIds s ++ queueIds s) ++ submitsOf [l] := by
  cases l with
  | remove uid => exact absurd hP (by simp [noFailB])
  | clear => exact absurd hP (by simp [noFailB])
  | submit id uid x =>
    simp only [applyLabel] at hstep
    cases hstep
    simp only [addToQueue]
    split
    · simp [startedIds, startedOf, queueIds, List.filterMap_append, submitsOf, mkQueueItem]
    · split
      · simp [startedIds, startedOf, queueIds, submitsOf, mkQueueItem]
      · rw [pqs_started_queue]
        simp [startedIds, startedOf, queueIds, submitsOf, mkQueueItem]
  | runTask i ok dur =>
    have hsub : submitsOf [Label.runTask i ok dur] = [] := rfl
    rw [hsub, List.append_nil]
    simp only [applyLabel] at hstep
    cases hget : s.tasks.get? i with
    | none => rw [hget] at hstep; exact absurd hstep (by simp)
    | some c =>
      rw [hget] at hstep
      have hstep' : applyCont { s with tasks := s.tasks.eraseIdx i } c ok dur = s' := by
        injection hstep
      subst hstep'
      cases c with
      | failReply jj => rfl
      | timeout => exact pqs_started_queue _
      | submitReply jj =>
        simp only [applyCont, addToQueueResume]
        split
        · split
          · rfl
          · exact pqs_started_queue _
        · simp [startedIds, startedOf, queueIds, List.filterMap_append]
      | handler jj =>
        have hok : ok = true := by
          simp only [noFailB, hget] at hP
          exact hP
        subst hok
        rfl

/-- The `startedIds ++ queueIds` invariant along a no-fail trace. -/
theorem startedQueue_trace {ls : List Label} :
    ∀ {s s' : QState}, StepsP noFailB s ls s' →
      startedIds s' ++ queueIds s' = (startedIds s ++ queueIds s) ++ submitsOf ls := by
  induction ls with
  | nil =>
    intro s s' h
    cases h
    simp [submitsOf]
  | cons l rest ih =>
    intro s s' h
    cases h with
    | cons hP hstep htail =>
      rw [ih htail, startedQueue_step _ _ _ hP hstep]
      have : submitsOf (l :: rest) = submitsOf [l] ++ submitsOf rest := by
        cases l <;> simp [submitsOf]
      rw [this, List.append_assoc]

/-- Is this continuation a pending terminal-failure reply? -/
def contFailB : Cont → Bool
  | .failReply _ => true
  | _ => false

/-- Is this continuation a pending `setTimeout`? -/
def contTimeoutB : Cont → Bool
  | .timeout => true
  | _ => false

/-- Number of pending terminal-failure replies. -/
def numFail (ts : List Cont) : Nat := (ts.filter contFailB).length

/-- Number of pending timeouts. -/
def numTimeout (ts : List Cont) : Nat := (ts.filter contTimeoutB).length

theorem numChain_decompose (ts : List Cont) :
    numChain ts = numHandler ts + numFail ts + numTimeout ts := by
  induction ts with
  | nil => rfl
  | cons c t ih =>
    cases c <;>
      simp [numChain, numHandler, numFail, numTimeout, List.filter_cons,
        contChainB, contHandlerB, contFailB, contTimeoutB] at * <;>
      omega

theorem events_pqs (t : QState) :
    ∃ es, (processQueueStart t).events = t.events ++ es := by
  cases hq : t.processingQueue with
  | nil => exact ⟨[], by simp [processQueueStart, hq]⟩
  | cons j rest => exact ⟨[Event.started j.id], by simp [processQueueStart, hq]⟩

/-- The event log is append-only. -/
theorem events_mono_step (s : QState) (l : Label) (s' : QState)
    (hstep : applyLabel s l = some s') : ∃ es, s'.events = s.events ++ es := by
  cases l with
  | remove uid =>
    simp only [applyLabel] at hstep; cases hstep; exact ⟨[], by simp [removeFromQueue]⟩
  | clear =>
    simp only [applyLabel] at hstep; cases hstep; exact ⟨[], by simp [clearQueue]⟩
  | submit id uid x =>
    simp only [applyLabel] at hstep
    cases hstep
    simp only [addToQueue]
    split
    · exact ⟨_, rfl⟩
    · split
      · exact ⟨[], by simp⟩
      · exact events_pqs _
  | runTask i ok dur =>
    simp only [applyLabel] at hstep
    cases hget : s.tasks.get? i with
    | none => rw [hget] at hstep; exact absurd hstep (by simp)
    | some c =>
      rw [hget] at hstep
      have hstep' : applyCont { s with tasks := s.tasks.eraseIdx i } c ok dur = s' := by
        injection hstep
      subst hstep'
      cases c with
      | failReply jj => exact ⟨[], by simp [applyCont, processQueueAfterFailReply]⟩
      | timeout => exact events_pqs _
      | submitReply jj =>
        simp only [applyCont, addToQueueResume]
        split
        · split
          · exact ⟨[], by simp⟩
          · exact events_pqs _
        · exact ⟨_, rfl⟩
      | handler jj =>
        simp only [applyCont, processQueueAfterHandler]
        split
        · exact ⟨[], by simp⟩
        · split
          · exact ⟨[], by simp⟩
          · exact ⟨_, rfl⟩

theorem startedIds_mono_step (s : QState) (l : Label) (s' : QState)
    (hstep : applyLabel s l = some s') :
    ∃ tl, startedIds s' = startedIds s ++ tl := by
  obtain ⟨es, he⟩ := events_mono_step s l s' hstep
  refine ⟨es.filterMap startedOf, ?_⟩
  simp only [startedIds, he, startedIds_append]

theorem startedIds_mono_trace {P : QState → Label → Bool} {ls : List Label} :
    ∀ {s s' : QState}, StepsP P s ls s' →
      ∃ tl, startedIds s' = startedIds s ++ tl := by
  induction ls with
  | nil =>
    intro s s' h
    cases h
    exact ⟨[], by simp⟩
  | cons l rest ih =>
    intro s s' h
    cases h with
    | cons hP hstep htail =>
      obtain ⟨tl1, h1⟩ := startedIds_mono_step _ _ _ hstep
      obtain ⟨tl2, h2⟩ := ih htail
      exact ⟨tl1 ++ tl2, by rw [h2, h1, List.append_assoc]⟩

/-- The cooldown state after a retry: the retried job `j` sits at the front of
the pending list, no handler has started since (`startedIds` still `E`), the
busy flag is set, and the only scheduler-chain continuation is the pending
`setTimeout`. -/
def RetryWait (j : Job) (E : List Nat) (t : QState) : Prop :=
  t.processingQueue.head? = some j ∧ startedIds t = E ∧ t.isProcessing = true ∧
  numHandler t.tasks = 0 ∧ numFail t.tasks = 0 ∧ numTimeout t.tasks = 1

theorem retryWait_step (j : Job) (E : List Nat) (t : QState) (l : Label) (t' : QState)
    (hw : RetryWait j E t) (hP : noAdminB t l = true)
    (hstep : applyLabel t l = some t') :
    RetryWait j E t' ∨ startedIds t' = E ++ [j.id] := by
  obtain ⟨hhead, hE, hproc, hnh, hnf, hnt⟩ := hw
  cases l with
  | remove uid => exact absurd hP (by simp [noAdminB])
  | clear => exact absurd hP (by simp [noAdminB])
  | submit id uid x =>
    simp only [applyLabel] at hstep
    cases hstep
    cases hq : t.processingQueue with
    | nil => rw [hq] at hhead; exact absurd hhead (by simp)
    | cons a rest =>
      rw [hq] at hhead
      left
      simp only [addToQueue]
      rw [if_pos (by simp [hq])]
      refine ⟨?_, ?_, hproc, ?_, ?_, ?_⟩
      · simpa [hq] using hhead
      · simp only [startedIds, startedIds_append] at *
        simpa [startedOf] using hE
      · simpa [numHandler, List.filter_append, List.filter_cons, contHandlerB] using hnh
      · simpa [numFail, List.filter_append, List.filter_cons, contFailB] using hnf
      · simpa [numTimeout, List.filter_append, List.filter_cons, contTimeoutB] using hnt
  | runTask i ok dur =>
    simp only [applyLabel] at hstep
    cases hget : t.tasks.get? i with
    | none => rw [hget] at hstep; exact absurd hstep (by simp)
    | some c =>
      rw [hget] at hstep
      have hstep' : applyCont { t with tasks := t.tasks.eraseIdx i } c ok dur = t' := by
        injection hstep
      subst hstep'
      cases c with
      | handler jj =>
        have := filterLen_eraseIdx contHandlerB t.tasks i _ hget
        simp only [contHandlerB] at this
        rw [show numHandler t.tasks =
          numHandler (t.tasks.eraseIdx i) + 1 from this] at hnh
        exact absurd hnh (by simp)
      | failReply jj =>
        have := filterLen_eraseIdx contFailB t.tasks i _ hget
        simp only [contFailB] at this
        rw [show numFail t.tasks = numFail (t.tasks.eraseIdx i) + 1 from this] at hnf
        exact absurd hnf (by simp)
      | submitReply jj =>
        have hH := filterLen_eraseIdx contHandlerB t.tasks i _ hget
        have hF := filterLen_eraseIdx contFailB t.tasks i _ hget
        have hT := filterLen_eraseIdx contTimeoutB t.tasks i _ hget
        simp [contHandlerB] at hH
        simp [contFailB] at hF
        simp [contTimeoutB] at hT
        simp only [numHandler] at hnh
        simp only [numFail] at hnf
        simp only [numTimeout] at hnt
        have hH0 : numHandler (t.tasks.eraseIdx i) = 0 := by
          simp only [numHandler]; omega
        have hF0 : numFail (t.tasks.eraseIdx i) = 0 := by
          simp only [numFail]; omega
        have hT1 : numTimeout (t.tasks.eraseIdx i) = 1 := by
          simp only [numTimeout]; omega
        left
        have hrec : ({ t with tasks := t.tasks.eraseIdx i } : QState).isProcessing = true :=
          hproc
        cases ok with
        | true =>
          simp only [applyCont, addToQueueResume, hrec]
          rw [if_pos trivial, if_pos hproc]
          exact ⟨hhead, hE, hproc, hH0, hF0, hT1⟩
        | false =>
          simp only [applyCont, addToQueueResume]
          rw [if_neg (by simp)]
          refine ⟨hhead, ?_, hproc, hH0, hF0, hT1⟩
          simp only [startedIds, startedIds_append] at *
          simpa [startedOf] using hE
      | timeout =>
        have hH := filterLen_eraseIdx contHandlerB t.tasks i _ hget
        have hF := filterLen_eraseIdx contFailB t.tasks i _ hget
        have hT := filterLen_eraseIdx contTimeoutB t.tasks i _ hget
        simp [contHandlerB] at hH
        simp [contFailB] at hF
        simp [contTimeoutB] at hT
        right
        cases hq : t.processingQueue with
        | nil => rw [hq] at hhead; exact absurd hhead (by simp)
        | cons a rest =>
          rw [hq] at hhead
          have ha : a = j := by injection hhead
          subst ha
          simp only [applyCont, processQueueStart, hq]
          simp only [startedIds, startedIds_append] at *
          simp [startedOf, hE]

theorem retryWait_trace {ls : List Label} :
    ∀ {t t'' : QState}, StepsP noAdminB t ls t'' → ∀ {j : Job} {E : List Nat},
      RetryWait j E t →
      startedIds t'' = E ∨ ∃ tl, startedIds t'' = E ++ j.id :: tl := by
  induction ls with
  | nil =>
    intro t t'' h j E hw
    cases h
    exact Or.inl hw.2.1
  | cons l rest ih =>
    intro t t'' h j E hw
    cases h with
    | cons hP hstep htail =>
      rcases retryWait_step j E t l _ hw hP hstep with hw' | hdone
      · exact ih htail hw'
      · obtain ⟨tl, htl⟩ := startedIds_mono_trace htail
        right
        exact ⟨tl, by rw [htl, hdone, List.append_assoc]; rfl⟩

/-- C1: (i) along every trace from the initial state with no handler failure
and no admin removal, the handlers run in FIFO admission order: the sequence
of started job ids is a prefix of the sequence of admitted ids; (ii) when a
job fails with attempts remaining it is re-inserted at position 0 of the
pending list (its incremented copy is the new queue front), and along every
continuation of the run (without admin removals) the next handler started —
if any — is the retried job, not an earlier-admitted still-pending one. -/
theorem c1_fifo_retry_priority :
    (∀ ls s, StepsP noFailB initState ls s →
      ∃ t, startedIds s ++ t = submitsOf ls) ∧
    (∀ s i j dur s', Reachable s →
      s.tasks.get? i = some (Cont.handler j) →
      ((j.attempts : Int) + 1 < j.maxAttempts) →
      applyLabel s (Label.runTask i false dur) = some s' →
      s'.processingQueue.head? = some { j with attempts := j.attempts + 1 } ∧
      startedIds s' = startedIds s ∧
      (∀ ls t, StepsP noAdminB s' ls t →
        startedIds t = startedIds s ∨
        ∃ tl, startedIds t = startedIds s ++ j.id :: tl)) := by
  constructor
  · intro ls s hsteps
    refine ⟨queueIds s, ?_⟩
    have h := startedQueue_trace hsteps
    simpa [startedIds, queueIds, initState] using h
  · intro s i j dur s' hreach hget hretry hstep
    obtain ⟨hact, hle, himp⟩ := inv_reachable hreach
    have hH := numHandler_eraseIdx s.tasks i _ hget
    have hF : numFail s.tasks = numFail (s.tasks.eraseIdx i) +
        (if contFailB (Cont.handler j) then 1 else 0) :=
      filterLen_eraseIdx contFailB s.tasks i _ hget
    have hT : numTimeout s.tasks = numTimeout (s.tasks.eraseIdx i) +
        (if contTimeoutB (Cont.handler j) then 1 else 0) :=
      filterLen_eraseIdx contTimeoutB s.tasks i _ hget
    rw [show (if contHandlerB (Cont.handler j) then 1 else 0) = 1 from rfl] at hH
    rw [show (if contFailB (Cont.handler j) then 1 else 0) = 0 from rfl] at hF
    rw [show (if contTimeoutB (Cont.handler j) then 1 else 0) = 0 from rfl] at hT
    have hdec := numChain_decompose s.tasks
    have hproc : s.isProcessing = true := by
      apply himp
      omega
    simp only [applyLabel] at hstep
    rw [hget] at hstep
    have hstep' : applyCont { s with tasks := s.tasks.eraseIdx i }
        (Cont.handler j) false dur = s' := by
      injection hstep
    have hs' : s' = { s with
        tasks := (s.tasks.eraseIdx i) ++ [Cont.timeout]
        handlerActive := s.handlerActive - 1
        currentTask := some { j with attempts := j.attempts + 1 }
        processingQueue := { j with attempts := j.attempts + 1 } :: s.processingQueue } := by
      rw [← hstep']
      simp only [applyCont, processQueueAfterHandler]
      rw [if_neg (by simp), if_pos (by push_cast; exact hretry)]
    have hwait : RetryWait { j with attempts := j.attempts + 1 } (startedIds s) s' := by
      rw [hs']
      refine ⟨rfl, rfl, hproc, ?_, ?_, ?_⟩
      · show numHandler (s.tasks.eraseIdx i ++ [Cont.timeout]) = 0
        rw [numHandler_append_single,
          show (if contHandlerB Cont.timeout then 1 else 0) = 0 from rfl]
        omega
      · show numFail (s.tasks.eraseIdx i ++ [Cont.timeout]) = 0
        rw [show numFail (s.tasks.eraseIdx i ++ [Cont.timeout]) =
            numFail (s.tasks.eraseIdx i) + numFail [Cont.timeout] from
          filterLen_append contFailB _ _]
        rw [show numFail [Cont.timeout] = 0 from rfl]
        omega
      · show numTimeout (s.tasks.eraseIdx i ++ [Cont.timeout]) = 1
        rw [show numTimeout (s.tasks.eraseIdx i ++ [Cont.timeout]) =
            numTimeout (s.tasks.eraseIdx i) + numTimeout [Cont.timeout] from
          filterLen_append contTimeoutB _ _]
        rw [show numTimeout [Cont.timeout] = 1 from rfl]
        omega
    refine ⟨by rw [hs']; rfl, by rw [hs']; rfl, ?_⟩
    intro ls t hsteps
    exact @retryWait_trace ls s' t hsteps { j with attempts := j.attempts + 1 }
      (startedIds s) hwait

theorem c1_fifo_retry_priority_witness :
    c6State.processingQueue.head? = some c6Job ∧
    startedIds c6State = startedIds c6Pre := by
  have h := c1_fifo_retry_priority.2 c6Pre 0
      { id := 1, userId := 10, attempts := 0, maxAttempts := 3 } 0 c6State
      ⟨[Label.submit 1 10 none], StepsP.cons rfl (by decide) (StepsP.nil _)⟩
      (by decide) (by decide) (by decide)
  exact ⟨h.1, h.2.1⟩

/-! ## Claim C2: retry exhaustion at maxAttempts = 3 -/

/-- Trace restriction for the retry-exhaustion scenario: only continuations
run (no further admissions, no admin operations) and every handler completion
fails. -/
def failOnlyB (s : QState) (l : Label) : Bool :=
  match l with
  | Label.runTask i ok _ =>
      match s.tasks.get? i with
      | some (Cont.handler _) => !ok
      | _ => true
  | _ => false

/-- The single job of the retry-exhaustion scenario after `a` failed
attempts. -/
def c2Job (id uid a : Nat) : Job :=
  { id := id, userId := uid, attempts := a, maxAttempts := 3 }

/-- Exhaustion scenario, state 1: the job's handler is executing,
`a` prior failures (`a < 3`), `k = a + 1` handler invocations so far. -/
def c2Exec (id uid a : Nat) : QState :=
  { processingQueue := []
    isProcessing := true
    currentTask := some (c2Job id uid a)
    stats := { totalProcessed := 0, totalFailed := 0,
               averageProcessingTime := 0, samples := [] }
    tasks := [Cont.handler (c2Job id uid a)]
    handlerActive := 1
    events := List.replicate (a + 1) (Event.started id) }

/-- Exhaustion scenario, state 2: cooldown after a retry, the job (now at
`a` attempts, `a ∈ {1, 2}`) is back at the front of the queue. -/
def c2Cool (id uid a : Nat) : QState :=
  { processingQueue := [c2Job id uid a]
    isProcessing := true
    currentTask := some (c2Job id uid a)
    stats := { totalProcessed := 0, totalFailed := 0,
               averageProcessingTime := 0, samples := [] }
    tasks := [Cont.timeout]
    handlerActive := 0
    events := List.replicate a (Event.started id) }

/-- Exhaustion scenario: terminal failure reply in flight. -/
def c2Terminal (id uid : Nat) : QState :=
  { processingQueue := []
    isProcessing := true
    currentTask := some (c2Job id uid 3)
    stats := { totalProcessed := 0, totalFailed := 1,
               averageProcessingTime := 0, samples := [] }
    tasks := [Cont.failReply (c2Job id uid 3)]
    handlerActive := 0
    events := List.replicate 3 (Event.started id) ++ [Event.failNotice uid] }

/-- Exhaustion scenario: cooldown after the terminal failure. -/
def c2AfterTerminal (id uid : Nat) : QState :=
  { processingQueue := []
    isProcessing := true
    currentTask := some (c2Job id uid 3)
    stats := { totalProcessed := 0, totalFailed := 1,
               averageProcessingTime := 0, samples := [] }
    tasks := [Cont.timeout]
    handlerActive := 0
    events := List.replicate 3 (Event.started id) ++ [Event.failNotice uid] }

/-- Exhaustion scenario: quiescent final state. -/
def c2Done (id uid : Nat) : QState :=
  { processingQueue := []
    isProcessing := false
    currentTask := none
    stats := { totalProcessed := 0, totalFailed := 1,
               averageProcessingTime := 0, samples := [] }
    tasks := []
    handlerActive := 0
    events := List.replicate 3 (Event.started id) ++ [Event.failNotice uid] }

/-- The set of states reachable in the retry-exhaustion scenario. -/
def C2Member (id uid : Nat) (s : QState) : Prop :=
  s = c2Exec id uid 0 ∨ s = c2Cool id uid 1 ∨ s = c2Exec id uid 1 ∨
  s = c2Cool id uid 2 ∨ s = c2Exec id uid 2 ∨ s = c2Terminal id uid ∨
  s = c2AfterTerminal id uid ∨ s = c2Done id uid

theorem c2_member_step (id uid : Nat) (s : QState) (l : Label) (s' : QState)
    (hmem : C2Member id uid s) (hP : failOnlyB s l = true)
    (hstep : applyLabel s l = some s') : C2Member id uid s' := by
  cases l with
  | submit a b c => exact absurd hP (by simp [failOnlyB])
  | remove u => exact absurd hP (by simp [failOnlyB])
  | clear => exact absurd hP (by simp [failOnlyB])
  | runTask i ok dur =>
    rcases hmem with rfl | rfl | rfl | rfl | rfl | rfl | rfl | rfl
    · cases i with
      | succ n =>
        simp only [applyLabel] at hstep
        rw [show (c2Exec id uid 0).tasks.get? (n + 1) = none from rfl] at hstep
        exact absurd hstep (by simp)
      | zero =>
        cases ok with
        | true => exact absurd hP (by simp [failOnlyB, c2Exec])
        | false =>
          rw [show applyLabel (c2Exec id uid 0) (Label.runTask 0 false dur)
                = some (c2Cool id uid 1) from rfl] at hstep
          injection hstep with h
          subst h
          exact Or.inr (Or.inl rfl)
    · cases i with
      | succ n =>
        simp only [applyLabel] at hstep
        rw [show (c2Cool id uid 1).tasks.get? (n + 1) = none from rfl] at hstep
        exact absurd hstep (by simp)
      | zero =>
        rw [show applyLabel (c2Cool id uid 1) (Label.runTask 0 ok dur)
              = some (c2Exec id uid 1) from rfl] at hstep
        injection hstep with h
        subst h
        exact Or.inr (Or.inr (Or.inl rfl))
    · cases i with
      | succ n =>
        simp only [applyLabel] at hstep
        rw [show (c2Exec id uid 1).tasks.get? (n + 1) = none from rfl] at hstep
        exact absurd hstep (by simp)
      | zero =>
        cases ok with
        | true => exact absurd hP (by simp [failOnlyB, c2Exec])
        | false =>
          rw [show applyLabel (c2Exec id uid 1) (Label.runTask 0 false dur)
                = some (c2Cool id uid 2) from rfl] at hstep
          injection hstep with h
          subst h
          exact Or.inr (Or.inr (Or.inr (Or.inl rfl)))
    · cases i with
      | succ n =>
        simp only [applyLabel] at hstep
        rw [show (c2Cool id uid 2).tasks.get? (n + 1) = none from rfl] at hstep
        exact absurd hstep (by simp)
      | zero =>
        rw [show applyLabel (c2Cool id uid 2) (Label.runTask 0 ok dur)
              = some (c2Exec id uid 2) from rfl] at hstep
        injection hstep with h
        subst h
        exact Or.inr (Or.inr (Or.inr (Or.inr (Or.inl rfl))))
    · cases i with
      | succ n =>
        simp only [applyLabel] at hstep
        rw [show (c2Exec id uid 2).tasks.get? (n + 1) = none from rfl] at hstep
        exact absurd hstep (by simp)
      | zero =>
        cases ok with
        | true => exact absurd hP (by simp [failOnlyB, c2Exec])
        | false =>
          rw [show applyLabel (c2Exec id uid 2) (Label.runTask 0 false dur)
                = some (c2Terminal id uid) from rfl] at hstep
          injection hstep with h
          subst h
          exact Or.inr (Or.inr (Or.inr (Or.inr (Or.inr (Or.inl rfl)))))
    · cases i with
      | succ n =>
        simp only [applyLabel] at hstep
        rw [show (c2Terminal id uid).tasks.get? (n + 1) = none from rfl] at hstep
        exact absurd hstep (by simp)
      | zero =>
        rw [show applyLabel (c2Terminal id uid) (Label.runTask 0 ok dur)
              = some (c2AfterTerminal id uid) from rfl] at hstep
        injection hstep with h
        subst h
        exact Or.inr (Or.inr (Or.inr (Or.inr (Or.inr (Or.inr (Or.inl rfl))))))
    · cases i with
      | succ n =>
        simp only [applyLabel] at hstep
        rw [show (c2AfterTerminal id uid).tasks.get? (n + 1) = none from rfl] at hstep
        exact absurd hstep (by simp)
      | zero =>
        rw [show applyLabel (c2AfterTerminal id uid) (Label.runTask 0 ok dur)
              = some (c2Done id uid) from rfl] at hstep
        injection hstep with h
        subst h
        exact Or.inr (Or.inr (Or.inr (Or.inr (Or.inr (Or.inr (Or.inr rfl))))))
    · simp only [applyLabel] at hstep
      rw [show (c2Done id uid).tasks.get? i = none from rfl] at hstep
      exact absurd hstep (by simp)

theorem c2_member_trace (id uid : Nat) {ls : List Label} :
    ∀ {s s' : QState}, StepsP failOnlyB s ls s' → C2Member id uid s →
      C2Member id uid s' := by
  induction ls with
  | nil => intro s s' h hm; cases h; exact hm
  | cons l rest ih =>
    intro s s' h hm
    cases h with
    | cons hP hstep htail => exact ih htail (c2_member_step id uid _ l _ hm hP hstep)

/-- C2: if a job is admitted with no `maxAttempts` option (so the ceiling
defaults to 3) and every handler run fails, then along every such trace the
handler is invoked at most 3 times, `totalFailed` increments by exactly 1 (not
3), a terminal failure is never re-queued (the pending list is empty from the
terminal decision on) and the owner is sent the terminal-failure notice, every
live copy of the job satisfies `attempts ≤ 3 = maxAttempts` after each retry
decision, and when the scheduler goes quiescent the handler has been invoked
exactly 3 times. -/
theorem c2_retry_exhaustion (id uid : Nat) (ls : List Label) (s₁ s : QState)
    (hsub : applyLabel initState (Label.submit id uid none) = some s₁)
    (hsteps : StepsP failOnlyB s₁ ls s) :
    (startedIds s).length ≤ 3 ∧
    s.stats.totalFailed ≤ 1 ∧
    (s.stats.totalFailed = 1 →
      s.processingQueue = [] ∧ Event.failNotice uid ∈ s.events) ∧
    (∀ jb ∈ s.processingQueue, jb.attempts ≤ 3 ∧ jb.maxAttempts = 3) ∧
    (∀ jb, s.currentTask = some jb → jb.attempts ≤ 3 ∧ jb.maxAttempts = 3) ∧
    (s.tasks = [] →
      (startedIds s).length = 3 ∧ s.stats.totalFailed = 1 ∧
      Event.failNotice uid ∈ s.events ∧ s.processingQueue = [] ∧
      s.currentTask = none) := by
  have h1 : s₁ = c2Exec id uid 0 := by
    rw [show applyLabel initState (Label.submit id uid none)
          = some (c2Exec id uid 0) from rfl] at hsub
    injection hsub with h
    exact h.symm
  subst h1
  have hmem := c2_member_trace id uid hsteps (Or.inl rfl)
  rcases hmem with rfl | rfl | rfl | rfl | rfl | rfl | rfl | rfl <;>
    refine ⟨?_, ?_, ?_, ?_, ?_, ?_⟩ <;>
    simp [c2Exec, c2Cool, c2Terminal, c2AfterTerminal, c2Done, c2Job,
      startedIds, startedOf, List.replicate_succ]

/-- Run a list of labels from a state, also checking the side condition. -/
def runTraceP (P : QState → Label → Bool) (s : QState) (ls : List Label) :
    Option QState :=
  match ls with
  | [] => some s
  | l :: rest =>
      if P s l then
        match applyLabel s l with
        | none => none
        | some s' => runTraceP P s' rest
      else none

theorem runTraceP_steps {P : QState → Label → Bool} {ls : List Label} :
    ∀ {s s' : QState}, runTraceP P s ls = some s' → StepsP P s ls s' := by
  induction ls with
  | nil =>
    intro s s' h
    simp only [runTraceP] at h
    cases h
    exact StepsP.nil s
  | cons l rest ih =>
    intro s s' h
    simp only [runTraceP] at h
    cases hP : P s l with
    | false => rw [hP] at h; exact absurd h (by simp)
    | true =>
      rw [hP] at h
      simp only [if_true] at h
      cases hl : applyLabel s l with
      | none => rw [hl] at h; exact absurd h (by simp)
      | some t => rw [hl] at h; exact StepsP.cons hP hl (ih h)

/-- The all-fail schedule of the retry-exhaustion scenario. -/
def c2Trace : List Label :=
  [Label.runTask 0 false 0, Label.runTask 0 true 0, Label.runTask 0 false 0,
   Label.runTask 0 true 0, Label.runTask 0 false 0, Label.runTask 0 true 0,
   Label.runTask 0 true 0]

theorem c2_retry_exhaustion_witness :
    (startedIds (c2Done 1 10)).length = 3 ∧
    (c2Done 1 10).stats.totalFailed = 1 ∧
    Event.failNotice 10 ∈ (c2Done 1 10).events ∧
    (c2Done 1 10).processingQueue = [] := by
  have h := c2_retry_exhaustion 1 10 c2Trace (c2Exec 1 10 0) (c2Done 1 10)
      (by decide) (runTraceP_steps (by decide))
  obtain ⟨-, -, -, -, -, hq⟩ := h
  obtain ⟨h1, h2, h3, h4, -⟩ := hq rfl
  exact ⟨h1, h2, h3, h4⟩

end FileConverterQueue
